import Mathlib

/-!
Verification of the `time-to-boot-server` tool (src/main.go).

The measurement layer (probers, `measure`, `benchmark`, `main`) is embedded
shallowly from src/main.go.  Durations are modelled as integers (Go
`time.Duration` is an `int64` nanosecond count); the statistics layer works
over `ℚ` (Go `float64`).  Side effects (network probes, the child process,
the wall clock) are modelled by explicit oracles, and the order of effects is
recorded in explicit event traces.  The unbounded busy-poll loop of `measure`
is embedded with an explicit fuel parameter; theorems quantify over the fuel,
which recovers the uncapped loop.

The statistics functions (`stats.Min`, `stats.Max`, `stats.Median`,
`stats.StandardDeviation`, `stats.QuartileOutliers`, `stats.Percentile` from
the `github.com/montanaflynn/stats` dependency) are not part of the
repository sources; they are modelled from the spec, as indicated in their
doc comments.
-/

namespace TimeToBoot

/-- Resource-release closures returned by the probers: the TCP prober closes
the connection, the HTTP prober closes the response body
(src/main.go lines 47-66). -/
inductive ReleaseAction
  | closeConn
  | closeRespBody
  deriving DecidableEq, Repr

/-- Observable side actions a prober performs during one check. -/
inductive ProbeAction
  | dialTCP
  | httpGetRequest
  | readAllBody
  | closeAction (a : ReleaseAction)
  deriving DecidableEq, Repr

/-- Result of one prober check: the Go pair `(bool, func())` plus the list of
side actions the check performed, in order. -/
structure ProbeResult where
  success : Bool
  release : Option ReleaseAction
  performed : List ProbeAction
  deriving DecidableEq, Repr

/-- An HTTP response as observed by the prober (Go `*http.Response`). -/
structure HTTPResponse where
  statusCode : ℕ
  deriving DecidableEq, Repr

/-- Embedding of `tryConnectingWithTCP` (src/main.go lines 47-55).  The
outcome of `net.Dial` is the oracle `dialOk`.  On success it returns `true`
and a closure that closes the connection; on failure `false` and `nil`.  The
check never reads any payload. -/
def tryConnectingWithTCP (dialOk : Bool) : ProbeResult :=
  if dialOk then
    { success := true, release := some .closeConn, performed := [.dialTCP] }
  else
    { success := false, release := none, performed := [.dialTCP] }

/-- Embedding of `tryConnectingWithHTTPGet` (src/main.go lines 57-66).  The
outcome of `http.Get` is the oracle `resp` (`none` is a transport error).
Success requires a response with status code exactly 200; then the body is
fully drained (`ioutil.ReadAll`) before returning a closure that closes the
body.  Any other outcome yields `false` and `nil`, with no close performed. -/
def tryConnectingWithHTTPGet (resp : Option HTTPResponse) : ProbeResult :=
  match resp with
  | none => { success := false, release := none, performed := [.httpGetRequest] }
  | some r =>
    if r.statusCode == 200 then
      { success := true, release := some .closeRespBody,
        performed := [.httpGetRequest, .readAllBody] }
    else
      { success := false, release := none, performed := [.httpGetRequest] }

/-- The two connection modes resolved by `connectionFunctionFor`. -/
inductive ProberKind
  | tcpConnect
  | httpGet
  deriving DecidableEq, Repr

/-- Embedding of `connectionFunctionFor` (src/main.go lines 68-76): resolves
the mode string; any other string hits `log.Fatal`, modelled as `none`. -/
def connectionFunctionFor (mode : String) : Option ProberKind :=
  if mode = "tcp-connect" then some .tcpConnect
  else if mode = "http-get" then some .httpGet
  else none

/-- The release action each prober returns on success. -/
def releaseOf : ProberKind → ReleaseAction
  | .tcpConnect => .closeConn
  | .httpGet => .closeRespBody

/-- Network oracle for one measurement: the outcome of the k-th probe
attempt, for each prober. -/
structure NetEnv where
  tcpDial : ℕ → Bool
  httpResp : ℕ → Option HTTPResponse

/-- The resolved prober check applied at the k-th attempt of the busy-poll
loop. -/
def probeAt (kind : ProberKind) (env : NetEnv) (k : ℕ) : ProbeResult :=
  match kind with
  | .tcpConnect => tryConnectingWithTCP (env.tcpDial k)
  | .httpGet => tryConnectingWithHTTPGet (env.httpResp k)

/-- Wall-clock oracle for one measurement: `start` is the reading of
`time.Now()` taken by `measure`, `atProbe k` the reading of `time.Since`
taken when the k-th probe attempt succeeds.  Values are nanosecond counts. -/
structure Clock where
  start : ℤ
  atProbe : ℕ → ℤ

/-- The effects of `measure`, in order of occurrence. -/
inductive MEvent
  | recordStart
  | spawnChild
  | probe (k : ℕ) (ok : Bool)
  | computeElapsed
  | invokeRelease (a : ReleaseAction)
  | killChild
  | waitChild
  deriving DecidableEq, Repr

/-- How one call of `measure` ends.  `fuelOut` is the embedding artifact for
running out of fuel; `nilCall` marks the panic that calling a nil
housekeeping closure would raise. -/
inductive MStatus
  | ok (elapsed : ℤ)
  | fatalMode
  | fatalSpawn
  | nilCall
  | fuelOut
  deriving DecidableEq, Repr

/-- Result of one call of `measure`: its event trace and how it ended. -/
structure MeasureResult where
  events : List MEvent
  status : MStatus
  deriving DecidableEq, Repr

/-- The busy-poll loop of `measure` (src/main.go lines 84-93): at attempt `k`
it invokes the check; on success it computes the elapsed duration, calls the
housekeeping closure (unguarded in the Go source: a nil closure would panic),
kills the child and waits for it; otherwise it retries immediately, with no
sleep and no iteration cap. -/
def measureLoop (check : ℕ → ProbeResult) (clock : Clock) : ℕ → ℕ → MeasureResult
  | 0, _ => { events := [], status := .fuelOut }
  | fuel + 1, k =>
    let r := check k
    if r.success then
      match r.release with
      | some a =>
        { events := [.probe k true, .computeElapsed, .invokeRelease a,
                     .killChild, .waitChild],
          status := .ok (clock.atProbe k - clock.start) }
      | none => { events := [.probe k true, .computeElapsed], status := .nilCall }
    else
      let rest := measureLoop check clock fuel (k + 1)
      { events := .probe k false :: rest.events, status := rest.status }

/-- Embedding of `measure` (src/main.go lines 78-94): resolve the prober for
`mode` (fatal if unknown, before anything else happens), record the start
timestamp, launch the child process (`spawnOk` is the oracle for `boot`;
failure is fatal), then run the busy-poll loop. -/
def measure (mode : String) (env : NetEnv) (clock : Clock) (spawnOk : Bool)
    (fuel : ℕ) : MeasureResult :=
  match connectionFunctionFor mode with
  | none => { events := [], status := .fatalMode }
  | some kind =>
    if spawnOk then
      let rest := measureLoop (probeAt kind env) clock fuel 0
      { events := .recordStart :: .spawnChild :: rest.events, status := rest.status }
    else
      { events := [.recordStart], status := .fatalSpawn }

/-- Sample network oracle where the server is reachable from the first
attempt on. -/
def envUp : NetEnv :=
  { tcpDial := fun _ => true, httpResp := fun _ => some { statusCode := 200 } }

/-- Sample network oracle where the server becomes reachable at the third
probe attempt (index 2). -/
def envBootAt2 : NetEnv :=
  { tcpDial := fun k => decide (2 ≤ k),
    httpResp := fun k => if 2 ≤ k then some { statusCode := 200 } else none }

/-- Sample clock: starts at 3 ns, the k-th probe attempt succeeds at
`4 + k` ns. -/
def clockLin : Clock :=
  { start := 3, atProbe := fun k => 4 + k }

/-- Sample clock: starts at 0 ns, every probe attempt completes at 1 ns. -/
def clockOne : Clock :=
  { start := 0, atProbe := fun _ => 1 }

section ProberLemmas

/-- A successful check of either prober always carries a release action,
namely the one of its kind. -/
theorem probeAt_success_release (kind : ProberKind) (env : NetEnv) (k : ℕ)
    (h : (probeAt kind env k).success = true) :
    (probeAt kind env k).release = some (releaseOf kind) := by
  cases kind with
  | tcpConnect =>
    revert h
    simp only [probeAt, tryConnectingWithTCP, releaseOf]
    cases env.tcpDial k <;> simp
  | httpGet =>
    revert h
    simp only [probeAt, tryConnectingWithHTTPGet, releaseOf]
    cases hr : env.httpResp k with
    | none => simp
    | some r =>
      by_cases h200 : r.statusCode == 200 <;> simp [h200]

/-- If every successful check carries a release action, the busy-poll loop
never reaches the nil-closure panic. -/
theorem measureLoop_no_nilCall (check : ℕ → ProbeResult) (clock : Clock)
    (hrel : ∀ m, (check m).success = true → ((check m).release).isSome = true) :
    ∀ fuel k, (measureLoop check clock fuel k).status ≠ .nilCall := by
  intro fuel
  induction fuel with
  | zero => intro k; simp [measureLoop]
  | succ f ih =>
    intro k
    by_cases hs : (check k).success = true
    · have := hrel k hs
      cases hr : (check k).release with
      | none => rw [hr] at this; simp at this
      | some a => simp [measureLoop, hs, hr]
    · simp only [measureLoop, Bool.not_eq_true] at hs ⊢
      rw [hs]
      simpa using ih (k + 1)

/-- Characterisation of the busy-poll loop: if the first success starting
from attempt `k` comes after `c` failures and the fuel suffices, the loop
emits exactly the failed attempts followed by the success sequence, and
returns the elapsed time read at the successful attempt. -/
theorem measureLoop_run (check : ℕ → ProbeResult) (clock : Clock)
    (a : ReleaseAction) :
    ∀ (c k fuel : ℕ), c < fuel →
      (check (k + c)).success = true →
      (check (k + c)).release = some a →
      (∀ j < c, (check (k + j)).success = false) →
      measureLoop check clock fuel k =
        { events := ((List.range c).map fun j => .probe (k + j) false) ++
            [.probe (k + c) true, .computeElapsed, .invokeRelease a,
             .killChild, .waitChild],
          status := .ok (clock.atProbe (k + c) - clock.start) } := by
  intro c
  induction c with
  | zero =>
    intro k fuel hfuel hs hr _
    match fuel, hfuel with
    | f + 1, _ =>
      simp only [Nat.add_zero] at hs hr
      simp [measureLoop, hs, hr]
  | succ c ih =>
    intro k fuel hfuel hs hr hprev
    match fuel, hfuel with
    | f + 1, hfuel =>
      have hk : (check k).success = false := by
        have := hprev 0 (Nat.succ_pos c)
        simpa using this
      have harith0 : k + 1 + c = k + (c + 1) := by omega
      have hrec := ih (k + 1) f (Nat.lt_of_succ_lt_succ hfuel)
        (by rw [harith0]; exact hs)
        (by rw [harith0]; exact hr)
        (by
          intro j hj
          have := hprev (j + 1) (Nat.succ_lt_succ hj)
          rwa [Nat.add_succ, ← Nat.succ_add] at this)
      simp only [measureLoop, hk, Bool.false_eq_true, if_false]
      rw [hrec]
      have harith : k + 1 + c = k + (c + 1) := by omega
      have hmap : (List.range (c + 1)).map (fun j => MEvent.probe (k + j) false) =
          MEvent.probe k false ::
            (List.range c).map fun j => MEvent.probe (k + 1 + j) false := by
        rw [List.range_succ_eq_map]
        simp only [List.map_cons, List.map_map, Nat.add_zero]
        refine congrArg _ (List.map_congr_left ?_)
        intro j _
        simp only [Function.comp_apply]
        have : k + Nat.succ j = k + 1 + j := by omega
        rw [this]
      simp only [hmap, harith]
      simp

end ProberLemmas

section ProberClaims

/-- C3: the http-get prober succeeds iff the request completes without
transport error with status code exactly 200; on success it drains the body
and returns a close-body release action; on failure (transport error or
non-200 status) it returns `false` with no release action, and performs no
close action, so the connection of that attempt is not released. -/
theorem httpGet_prober_spec (resp : Option HTTPResponse) :
    ((tryConnectingWithHTTPGet resp).success = true ↔
      ∃ r, resp = some r ∧ r.statusCode = 200) ∧
    ((tryConnectingWithHTTPGet resp).success = true →
      (tryConnectingWithHTTPGet resp).release = some .closeRespBody ∧
      (tryConnectingWithHTTPGet resp).performed = [.httpGetRequest, .readAllBody]) ∧
    ((tryConnectingWithHTTPGet resp).success = false →
      (tryConnectingWithHTTPGet resp).release = none ∧
      ∀ a, ProbeAction.closeAction a ∉ (tryConnectingWithHTTPGet resp).performed) := by
  cases resp with
  | none => simp [tryConnectingWithHTTPGet]
  | some r =>
    by_cases h : r.statusCode = 200
    · simp [tryConnectingWithHTTPGet, h]
    · simp only [tryConnectingWithHTTPGet, beq_iff_eq, h, if_false]
      refine ⟨?_, ?_, ?_⟩
      · simp only [Bool.false_eq_true, false_iff]
        rintro ⟨r', hr', h200⟩
        exact h (by injection hr' with h1; rw [← h1] at h200; exact h200)
      · intro hfalse
        exact absurd hfalse (by simp)
      · intro _
        simp

/-- Witness for C3, at a 200 response. -/
theorem httpGet_prober_spec_witness :
    (tryConnectingWithHTTPGet (some { statusCode := 200 })).release =
        some .closeRespBody ∧
      (tryConnectingWithHTTPGet (some { statusCode := 200 })).performed =
        [.httpGetRequest, .readAllBody] :=
  (httpGet_prober_spec (some { statusCode := 200 })).2.1 (by decide)

/-- C4: the tcp-connect prober succeeds iff the raw connection opens; on
success it returns a close-connection release action; on failure it returns
`false` and no release action; it never consumes any payload (its only side
action is the dial itself). -/
theorem tcp_prober_spec (dialOk : Bool) :
    ((tryConnectingWithTCP dialOk).success = true ↔ dialOk = true) ∧
    ((tryConnectingWithTCP dialOk).success = true →
      (tryConnectingWithTCP dialOk).release = some .closeConn) ∧
    ((tryConnectingWithTCP dialOk).success = false →
      (tryConnectingWithTCP dialOk).release = none) ∧
    (tryConnectingWithTCP dialOk).performed = [.dialTCP] := by
  cases dialOk <;> simp [tryConnectingWithTCP]

/-- Witness for C4, at a successful dial. -/
theorem tcp_prober_spec_witness :
    (tryConnectingWithTCP true).release = some .closeConn :=
  (tcp_prober_spec true).2.1 (by decide)

/-- C10: whenever either prober reports success the accompanying release
action is non-nil, and consequently the success branch of `measure`, which
invokes the returned closure unguarded, never calls a nil function (the
`nilCall` outcome is unreachable). -/
theorem prober_release_nonnil :
    (∀ (kind : ProberKind) (env : NetEnv) (k : ℕ),
      (probeAt kind env k).success = true →
      ((probeAt kind env k).release).isSome = true) ∧
    (∀ (mode : String) (env : NetEnv) (clock : Clock) (spawnOk : Bool) (fuel : ℕ),
      (measure mode env clock spawnOk fuel).status ≠ .nilCall) := by
  constructor
  · intro kind env k h
    rw [probeAt_success_release kind env k h]
    rfl
  · intro mode env clock spawnOk fuel
    unfold measure
    cases hk : connectionFunctionFor mode with
    | none => simp
    | some kind =>
      cases spawnOk with
      | false => simp
      | true =>
        exact measureLoop_no_nilCall (probeAt kind env) clock
          (fun m hm => by rw [probeAt_success_release kind env m hm]; rfl)
          fuel 0

/-- Witness for C10, at the tcp prober with an immediately reachable
server. -/
theorem prober_release_nonnil_witness :
    ((probeAt .tcpConnect envUp 0).release).isSome = true ∧
    (measure "tcp-connect" envUp clockOne true 1).status ≠ .nilCall :=
  ⟨prober_release_nonnil.1 .tcpConnect envUp 0 (by decide),
   prober_release_nonnil.2 "tcp-connect" envUp clockOne true 1⟩

end ProberClaims

section MeasureClaims

/-- C1: for either valid mode (those are exactly the strings that
`connectionFunctionFor` resolves), `measure` records the start timestamp,
then spawns the child, then polls the resolved prober with no delay and no
cap: if the first success is at attempt `n` (any `n`, with enough fuel), the
trace is exactly the `n` failed probes followed by the successful probe, the
elapsed-time computation, the release call, the kill and the blocking wait —
and the returned duration is exactly the elapsed time read at attempt `n`. -/
theorem measure_busy_poll_spec (mode : String) (kind : ProberKind)
    (env : NetEnv) (clock : Clock) (n fuel : ℕ)
    (hmode : connectionFunctionFor mode = some kind)
    (hn : (probeAt kind env n).success = true)
    (hprev : ∀ m < n, (probeAt kind env m).success = false)
    (hfuel : n < fuel) :
    measure mode env clock true fuel =
      { events := [.recordStart, .spawnChild] ++
          ((List.range n).map fun j => .probe j false) ++
          [.probe n true, .computeElapsed, .invokeRelease (releaseOf kind),
           .killChild, .waitChild],
        status := .ok (clock.atProbe n - clock.start) } := by
  have hrel := probeAt_success_release kind env n hn
  have hloop := measureLoop_run (probeAt kind env) clock (releaseOf kind)
    n 0 fuel hfuel (by simpa using hn) (by simpa using hrel)
    (by intro j hj; simpa using hprev j hj)
  simp only [Nat.zero_add] at hloop
  simp only [measure, hmode, if_true]
  rw [hloop]
  simp

/-- Witness for C1: http-get mode, server up at the third attempt. -/
theorem measure_busy_poll_spec_witness :
    measure "http-get" envBootAt2 clockLin true 3 =
      { events := [.recordStart, .spawnChild] ++
          ((List.range 2).map fun j => .probe j false) ++
          [.probe 2 true, .computeElapsed, .invokeRelease (releaseOf .httpGet),
           .killChild, .waitChild],
        status := .ok (clockLin.atProbe 2 - clockLin.start) } :=
  measure_busy_poll_spec "http-get" .httpGet envBootAt2 clockLin 2 3
    (by decide) (by decide) (by decide) (by decide)

end MeasureClaims

/-- Modelled from the spec: the statistics functions come from the
`github.com/montanaflynn/stats` dependency, whose source is not part of this
repository.  All of them work on a sorted copy of the input; this is that
sorted copy. -/
def sortQ (l : List ℚ) : List ℚ :=
  List.insertionSort (· ≤ ·) l

/-- Modelled from the spec: `stats.Min`, the smallest value of the RunSet
(first element of the sorted copy; the value for an empty input is
irrelevant, the caller guards it). -/
def minQ (l : List ℚ) : ℚ :=
  (sortQ l).headD 0

/-- Modelled from the spec: `stats.Max`, the largest value of the RunSet
(last element of the sorted copy). -/
def maxQ (l : List ℚ) : ℚ :=
  (sortQ l).getLastD 0

/-- Modelled from the spec: `stats.Median`, the middle element of the sorted
copy for odd length, the mean of the two middle elements for even length. -/
def medianQ (l : List ℚ) : ℚ :=
  if (sortQ l).length % 2 = 1 then (sortQ l).getD ((sortQ l).length / 2) 0
  else ((sortQ l).getD ((sortQ l).length / 2 - 1) 0 +
    (sortQ l).getD ((sortQ l).length / 2) 0) / 2

/-- Modelled from the spec: the arithmetic mean, used by the standard
deviation. -/
def meanQ (l : List ℚ) : ℚ :=
  l.sum / l.length

/-- Modelled from the spec: the population variance, the mean squared
deviation from the mean.  `stats.StandardDeviation` is its square root. -/
def populationVarianceQ (l : List ℚ) : ℚ :=
  ((l.map fun x => (x - meanQ l) ^ 2).sum) / l.length

/-- Modelled from the spec: `s` is the standard deviation of `l` iff it is
the nonnegative square root of the population variance.  Stated as a
relation so the development stays in exact rational arithmetic. -/
def isStandardDeviation (l : List ℚ) (s : ℚ) : Prop :=
  0 ≤ s ∧ s * s = populationVarianceQ l

/-- Modelled from the spec: the fractional rank of percentile `p` for the
linear-interpolation percentile over `n` sorted values, `p (n-1) / 100`. -/
def percentileRank (l : List ℚ) (p : ℚ) : ℚ :=
  p * (((sortQ l).length : ℚ) - 1) / 100

/-- Modelled from the spec: the integer part of the fractional rank, the
index of the lower of the two sorted elements the percentile interpolates
between. -/
def percentileIdx (l : List ℚ) (p : ℚ) : ℕ :=
  (⌊percentileRank l p⌋).toNat

/-- Modelled from the spec: `stats.Percentile`, specified as linear
interpolation over the sorted RunSet: the value interpolates linearly
between the sorted elements on either side of the fractional rank. -/
def percentileQ (l : List ℚ) (p : ℚ) : ℚ :=
  (sortQ l).getD (percentileIdx l p) 0 +
    (percentileRank l p - (percentileIdx l p : ℚ)) *
      ((sortQ l).getD (percentileIdx l p + 1) ((sortQ l).getD (percentileIdx l p) 0) -
        (sortQ l).getD (percentileIdx l p) 0)

/-- Modelled from the spec: Tukey fencing with Q1 and Q3 the 25th and 75th
linear-interpolation percentiles (the spec requires the quartile method to
match the percentile computation): a value beyond 3 IQR from the nearest
quartile is an extreme outlier. -/
def isExtremeOutlier (l : List ℚ) (x : ℚ) : Bool :=
  decide (x < percentileQ l 25 - 3 * (percentileQ l 75 - percentileQ l 25)) ||
    decide (percentileQ l 75 + 3 * (percentileQ l 75 - percentileQ l 25) < x)

/-- Modelled from the spec: a value beyond 1.5 IQR from the nearest quartile
but within 3 IQR is a mild outlier. -/
def isMildOutlier (l : List ℚ) (x : ℚ) : Bool :=
  (decide (x < percentileQ l 25 - 3 / 2 * (percentileQ l 75 - percentileQ l 25)) ||
    decide (percentileQ l 75 + 3 / 2 * (percentileQ l 75 - percentileQ l 25) < x)) &&
    !(isExtremeOutlier l x)

/-- Modelled from the spec: `stats.QuartileOutliers`, the mild and extreme
outliers of the RunSet under Tukey fencing. -/
def quartileOutliers (l : List ℚ) : List ℚ × List ℚ :=
  ((sortQ l).filter (isMildOutlier l), (sortQ l).filter (isExtremeOutlier l))

/-- The ten percentile points reported by `benchmark`
(src/main.go line 129). -/
def percentilesList : List ℚ :=
  [75, 80, 85, 90, 95, 97.5, 98, 99, 99.9, 100]

/-- Modelled from the spec: the statistics functions reject an empty input
with an error (which `benchmark` swallows); otherwise they return the
value.  This wraps `minQ`. -/
def statMin (l : List ℚ) : Except Unit ℚ :=
  if l.isEmpty then .error () else .ok (minQ l)

/-- Modelled from the spec: empty-input guard around `maxQ`. -/
def statMax (l : List ℚ) : Except Unit ℚ :=
  if l.isEmpty then .error () else .ok (maxQ l)

/-- Modelled from the spec: empty-input guard around `medianQ`. -/
def statMedian (l : List ℚ) : Except Unit ℚ :=
  if l.isEmpty then .error () else .ok (medianQ l)

/-- Modelled from the spec: empty-input guard around the population
variance (the standard deviation computation fails on the same inputs). -/
def statVariance (l : List ℚ) : Except Unit ℚ :=
  if l.isEmpty then .error () else .ok (populationVarianceQ l)

/-- Modelled from the spec: empty-input guard around `percentileQ`. -/
def statPercentile (l : List ℚ) (p : ℚ) : Except Unit ℚ :=
  if l.isEmpty then .error () else .ok (percentileQ l p)

/-- The Go pattern `v, _ := stats.F(...)`: the error is discarded and a
degenerate input silently yields the zero value. -/
def discardErr (e : Except Unit ℚ) : ℚ :=
  match e with
  | .ok v => v
  | .error _ => 0

/-- The summary statistics block reported by `benchmark`
(src/main.go lines 114-134). -/
structure SummaryStatistics where
  minVal : ℚ
  maxVal : ℚ
  medianVal : ℚ
  variance : ℚ
  mild : List ℚ
  extreme : List ℚ
  percentileValues : List ℚ
  deriving DecidableEq, Repr

/-- The summary statistics `benchmark` computes over a RunSet, with every
statistics error swallowed as in the Go source (src/main.go lines 114-134). -/
def summaryOf (l : List ℚ) : SummaryStatistics :=
  { minVal := discardErr (statMin l)
    maxVal := discardErr (statMax l)
    medianVal := discardErr (statMedian l)
    variance := discardErr (statVariance l)
    mild := (quartileOutliers l).1
    extreme := (quartileOutliers l).2
    percentileValues := percentilesList.map fun p => discardErr (statPercentile l p) }

/-- The effects of `benchmark`, in order: the inlined events of each
`measure` call, the console report of each duration (cyan for dry runs,
green for counted runs), the sleep after each run, and the final statistics
stage over the collected RunSet. -/
inductive BEvent
  | mev (e : MEvent)
  | reportDry (d : ℤ)
  | reportRun (d : ℤ)
  | pause (d : ℤ)
  | statsStage (runSet : List ℚ) (summary : SummaryStatistics)
  deriving DecidableEq, Repr

/-- The oracles consumed by one `measure` call inside `benchmark`. -/
structure World where
  env : NetEnv
  clock : Clock

/-- The i-th call of `measure` performed by `benchmark` (dry runs and
counted runs use one global call index). -/
def callMeasure (mode : String) (w : ℕ → World) (fuel : ℕ → ℕ) (i : ℕ) :
    MeasureResult :=
  measure mode (w i).env (w i).clock true (fuel i)

/-- Outcome of a block of consecutive `measure` calls: either all completed,
with their events and the `float64` durations in order, or the process died
inside some call (`log.Fatal` aborts the whole tool). -/
inductive CallsOutcome
  | ok (events : List BEvent) (durations : List ℚ)
  | aborted (events : List BEvent) (st : MStatus)
  deriving Repr

/-- One loop of `benchmark` (src/main.go lines 99-110): `count` iterations
starting at global call index `base`; each iteration measures, reports the
duration, records it (as `float64(duration.Nanoseconds())`), and sleeps
`pauseBetweenRuns` — including after the last iteration. -/
def measureCalls (mode : String) (w : ℕ → World) (fuel : ℕ → ℕ) (pause : ℤ)
    (dry : Bool) : (base count : ℕ) → CallsOutcome
  | _, 0 => .ok [] []
  | base, count + 1 =>
    let r := callMeasure mode w fuel base
    let evs := r.events.map BEvent.mev
    match r.status with
    | .ok d =>
      let evs1 := evs ++ [if dry then .reportDry d else .reportRun d, .pause pause]
      match measureCalls mode w fuel pause dry (base + 1) count with
      | .ok evs2 ds => .ok (evs1 ++ evs2) ((d : ℚ) :: ds)
      | .aborted evs2 st => .aborted (evs1 ++ evs2) st
    | st => .aborted evs st

/-- How `benchmark` ends: normal completion with the RunSet, or a fatal
abort inside a `measure` call. -/
inductive BStatus
  | completed (runSet : List ℚ)
  | abortedRun (st : MStatus)
  deriving Repr

/-- Embedding of `benchmark` (src/main.go lines 96-135): `dryRuns`
measurements whose durations are reported but discarded, then `runs`
measurements recorded into the RunSet, then the statistics stage over the
RunSet. -/
def benchmark (mode : String) (dryRuns runs : ℕ) (pause : ℤ) (w : ℕ → World)
    (fuel : ℕ → ℕ) : List BEvent × BStatus :=
  match measureCalls mode w fuel pause true 0 dryRuns with
  | .aborted evs st => (evs, .abortedRun st)
  | .ok evs1 _ =>
    match measureCalls mode w fuel pause false dryRuns runs with
    | .aborted evs2 st => (evs1 ++ evs2, .abortedRun st)
    | .ok evs2 ds => (evs1 ++ evs2 ++ [.statsStage ds (summaryOf ds)], .completed ds)

/-- How the whole tool ends. -/
inductive ToolResult
  | fatalExecutable
  | ran (events : List BEvent) (status : BStatus)
  deriving Repr

/-- Embedding of the cli action in `main` (src/main.go lines 203-209): an
empty executable is fatal before `benchmark` is entered; otherwise
`benchmark` runs. -/
def mainAction (executable mode : String) (dryRuns runs : ℕ) (pause : ℤ)
    (w : ℕ → World) (fuel : ℕ → ℕ) : ToolResult :=
  if executable.length = 0 then .fatalExecutable
  else
    let b := benchmark mode dryRuns runs pause w fuel
    .ran b.1 b.2

/-- Sample world: the server is up immediately, the clock reads 0 at start
and 1 at every probe. -/
def wUp : ℕ → World :=
  fun _ => { env := envUp, clock := clockOne }

/-- Sample fuel assignment: one probe attempt per measurement suffices. -/
def fuelOne : ℕ → ℕ :=
  fun _ => 1

/-- The concatenation of per-iteration event segments `f base`, ...,
`f (base + count - 1)`, mirroring the loop structure of `benchmark`. -/
def segsFrom (f : ℕ → List BEvent) : (base count : ℕ) → List BEvent
  | _, 0 => []
  | base, count + 1 => f base ++ segsFrom f (base + 1) count

/-- The `float64` durations of calls `base`, ..., `base + count - 1`, in
execution order. -/
def mapFromQ (d : ℕ → ℤ) : (base count : ℕ) → List ℚ
  | _, 0 => []
  | base, count + 1 => ((d base : ℤ) : ℚ) :: mapFromQ d (base + 1) count

/-- The event segment of one dry-run iteration of `benchmark`. -/
def drySeg (mode : String) (w : ℕ → World) (fuel : ℕ → ℕ) (pause : ℤ)
    (d : ℕ → ℤ) (i : ℕ) : List BEvent :=
  ((callMeasure mode w fuel i).events.map BEvent.mev) ++
    [.reportDry (d i), .pause pause]

/-- The event segment of one counted-run iteration of `benchmark`. -/
def runSeg (mode : String) (w : ℕ → World) (fuel : ℕ → ℕ) (pause : ℤ)
    (d : ℕ → ℤ) (i : ℕ) : List BEvent :=
  ((callMeasure mode w fuel i).events.map BEvent.mev) ++
    [.reportRun (d i), .pause pause]

section BenchmarkLemmas

/-- The RunSet built from `count` calls has exactly `count` entries. -/
theorem mapFromQ_length (d : ℕ → ℤ) : ∀ count base, (mapFromQ d base count).length = count := by
  intro count
  induction count with
  | zero => intro base; simp [mapFromQ]
  | succ c ih => intro base; simp [mapFromQ, ih (base + 1)]

/-- Pointwise equal segment functions give equal traces. -/
theorem segsFrom_congr {f g : ℕ → List BEvent} (h : ∀ i, f i = g i) :
    ∀ count base, segsFrom f base count = segsFrom g base count := by
  intro count
  induction count with
  | zero => intro base; simp [segsFrom]
  | succ c ih => intro base; simp [segsFrom, h base, ih (base + 1)]

/-- If every call in the block returns normally, the block collects exactly
the per-iteration segments and the durations, in order. -/
theorem measureCalls_ok_eq (mode : String) (w : ℕ → World) (fuel : ℕ → ℕ)
    (pause : ℤ) (dry : Bool) (d : ℕ → ℤ) :
    ∀ count base,
      (∀ i, base ≤ i → i < base + count →
        (callMeasure mode w fuel i).status = .ok (d i)) →
      measureCalls mode w fuel pause dry base count =
        .ok (segsFrom (fun i => ((callMeasure mode w fuel i).events.map BEvent.mev) ++
              [if dry then .reportDry (d i) else .reportRun (d i), .pause pause])
            base count)
          (mapFromQ d base count) := by
  intro count
  induction count with
  | zero => intro base _; simp [measureCalls, segsFrom, mapFromQ]
  | succ c ih =>
    intro base h
    have hbase : (callMeasure mode w fuel base).status = .ok (d base) :=
      h base le_rfl (by omega)
    have hrest := ih (base + 1) (fun i h1 h2 => h i (by omega) (by omega))
    simp [measureCalls, hbase, hrest, segsFrom, mapFromQ]

/-- If the mode is unresolvable, the very first call of a nonempty block is
fatal, with no events at all. -/
theorem measureCalls_fatalMode (mode : String) (w : ℕ → World) (fuel : ℕ → ℕ)
    (pause : ℤ) (dry : Bool) (hm : connectionFunctionFor mode = none)
    (base count : ℕ) (hc : 0 < count) :
    measureCalls mode w fuel pause dry base count = .aborted [] .fatalMode := by
  match count, hc with
  | c + 1, _ =>
    have hcall : callMeasure mode w fuel base =
        { events := [], status := .fatalMode } := by
      simp [callMeasure, measure, hm]
    simp [measureCalls, hcall]

end BenchmarkLemmas

section BenchmarkClaims

/-- Sample duration assignment: every measurement takes 1 ns. -/
def dOne : ℕ → ℤ :=
  fun _ => 1

/-- C2: when every measurement returns normally, `benchmark` performs the
`dryRuns` dry measurements first (reported, excluded from the RunSet), then
the `runs` counted measurements whose durations form the RunSet in execution
order, with a sleep after every measurement (including the last dry run and
the last counted run), and the statistics stage comes only after all counted
runs, as the final event; the RunSet has exactly `runs` entries. -/
theorem benchmark_dry_then_counted (mode : String) (dryRuns runs : ℕ)
    (pause : ℤ) (w : ℕ → World) (fuel : ℕ → ℕ) (d : ℕ → ℤ)
    (h : ∀ i < dryRuns + runs, (callMeasure mode w fuel i).status = .ok (d i)) :
    benchmark mode dryRuns runs pause w fuel =
      (segsFrom (drySeg mode w fuel pause d) 0 dryRuns ++
        (segsFrom (runSeg mode w fuel pause d) dryRuns runs ++
          [.statsStage (mapFromQ d dryRuns runs)
            (summaryOf (mapFromQ d dryRuns runs))]),
       .completed (mapFromQ d dryRuns runs)) ∧
      (mapFromQ d dryRuns runs).length = runs := by
  refine ⟨?_, mapFromQ_length d runs dryRuns⟩
  have h1 := measureCalls_ok_eq mode w fuel pause true d dryRuns 0
    (fun i hi1 hi2 => h i (by omega))
  have h2 := measureCalls_ok_eq mode w fuel pause false d runs dryRuns
    (fun i hi1 hi2 => h i (by omega))
  have e1 : segsFrom (fun i => ((callMeasure mode w fuel i).events.map BEvent.mev) ++
      [if true then .reportDry (d i) else .reportRun (d i), .pause pause]) 0 dryRuns =
      segsFrom (drySeg mode w fuel pause d) 0 dryRuns :=
    segsFrom_congr (fun i => by simp [drySeg]) dryRuns 0
  have e2 : segsFrom (fun i => ((callMeasure mode w fuel i).events.map BEvent.mev) ++
      [if false then .reportDry (d i) else .reportRun (d i), .pause pause]) dryRuns runs =
      segsFrom (runSeg mode w fuel pause d) dryRuns runs :=
    segsFrom_congr (fun i => by simp [runSeg]) runs dryRuns
  rw [e1] at h1
  rw [e2] at h2
  simp [benchmark, h1, h2]

/-- Witness for C2: one dry run and one counted run against an immediately
reachable server. -/
theorem benchmark_dry_then_counted_witness :
    benchmark "tcp-connect" 1 1 7 wUp fuelOne =
      (segsFrom (drySeg "tcp-connect" wUp fuelOne 7 dOne) 0 1 ++
        (segsFrom (runSeg "tcp-connect" wUp fuelOne 7 dOne) 1 1 ++
          [.statsStage (mapFromQ dOne 1 1) (summaryOf (mapFromQ dOne 1 1))]),
       .completed (mapFromQ dOne 1 1)) ∧
      (mapFromQ dOne 1 1).length = 1 :=
  benchmark_dry_then_counted "tcp-connect" 1 1 7 wUp fuelOne dOne (by decide)

/-- C6 counterexample: with zero counted runs `benchmark` still reaches the
statistics stage and computes `SummaryStatistics` over the empty RunSet
(the empty-input errors of the statistics functions are swallowed), so
summary statistics ARE produced when runs = 0, contradicting the claim that
they never are. -/
theorem stats_computed_on_empty_runset :
    benchmark "tcp-connect" 0 0 7 wUp fuelOne =
      ([.statsStage [] (summaryOf [])], .completed []) := rfl

/-- C6 amended: `benchmark` runs the statistics stage unconditionally after
the counted runs; with runs = 0 the stage is invoked on the empty RunSet,
every statistic returns an empty-input error that `benchmark` swallows, and
the reported summary degenerates to all zero values. -/
theorem benchmark_always_stats_stage (mode : String) (dryRuns : ℕ) (pause : ℤ)
    (w : ℕ → World) (fuel : ℕ → ℕ) (d : ℕ → ℤ)
    (h : ∀ i < dryRuns, (callMeasure mode w fuel i).status = .ok (d i)) :
    benchmark mode dryRuns 0 pause w fuel =
      (segsFrom (drySeg mode w fuel pause d) 0 dryRuns ++
        [.statsStage [] (summaryOf [])],
       .completed []) ∧
      statMin [] = .error () ∧ statMax [] = .error () ∧
      statMedian [] = .error () ∧ statVariance [] = .error () ∧
      summaryOf [] = ⟨0, 0, 0, 0, [], [], List.replicate 10 0⟩ := by
  refine ⟨?_, rfl, rfl, rfl, rfl, rfl⟩
  have h1 := measureCalls_ok_eq mode w fuel pause true d dryRuns 0
    (fun i hi1 hi2 => h i (by omega))
  have e1 : segsFrom (fun i => ((callMeasure mode w fuel i).events.map BEvent.mev) ++
      [if true then .reportDry (d i) else .reportRun (d i), .pause pause]) 0 dryRuns =
      segsFrom (drySeg mode w fuel pause d) 0 dryRuns :=
    segsFrom_congr (fun i => by simp [drySeg]) dryRuns 0
  rw [e1] at h1
  simp [benchmark, h1, measureCalls, mapFromQ, segsFrom]

/-- Witness for the amended C6, with no dry runs at all. -/
theorem benchmark_always_stats_stage_witness :
    benchmark "tcp-connect" 0 0 7 wUp fuelOne =
      (segsFrom (drySeg "tcp-connect" wUp fuelOne 7 dOne) 0 0 ++
        [.statsStage [] (summaryOf [])],
       .completed []) ∧
      statMin [] = .error () ∧ statMax [] = .error () ∧
      statMedian [] = .error () ∧ statVariance [] = .error () ∧
      summaryOf [] = ⟨0, 0, 0, 0, [], [], List.replicate 10 0⟩ :=
  benchmark_always_stats_stage "tcp-connect" 0 7 wUp fuelOne dOne (by decide)

/-- C9 counterexample: with an unrecognized mode but zero dry runs and zero
counted runs, the mode is never validated: the tool does not terminate
fatally but completes normally (it even reports degenerate statistics),
contradicting the claim that every invalid mode is fatal and reported. -/
theorem invalid_mode_zero_runs_not_fatal :
    mainAction "python" "bogus" 0 0 7 wUp fuelOne =
      .ran [.statsStage [] (summaryOf [])] (.completed []) := rfl

/-- C9 amended: an empty executable is always fatal before anything runs;
an unrecognized mode is fatal with no event at all (in particular no start
timestamp and no child spawn) provided at least one measurement is
attempted (dryRuns + runs > 0) — with zero measurements the invalid mode
goes undetected and the tool completes normally. -/
theorem config_errors_fatal (exe mode : String) (dryRuns runs : ℕ) (pause : ℤ)
    (w : ℕ → World) (fuel : ℕ → ℕ) :
    (exe.length = 0 → mainAction exe mode dryRuns runs pause w fuel = .fatalExecutable) ∧
    (exe.length ≠ 0 → mode ≠ "tcp-connect" → mode ≠ "http-get" →
      0 < dryRuns + runs →
      mainAction exe mode dryRuns runs pause w fuel =
        .ran [] (.abortedRun .fatalMode)) := by
  constructor
  · intro h
    simp [mainAction, h]
  · intro hexe h1 h2 hpos
    have hm : connectionFunctionFor mode = none := by
      simp [connectionFunctionFor, h1, h2]
    unfold mainAction
    rw [if_neg hexe]
    cases dryRuns with
    | zero =>
      have hruns : 0 < runs := by omega
      have hc := measureCalls_fatalMode mode w fuel pause false hm 0 runs hruns
      simp [benchmark, measureCalls, hc]
    | succ c =>
      have hc := measureCalls_fatalMode mode w fuel pause true hm 0 (c + 1)
        (Nat.succ_pos c)
      simp [benchmark, hc]

/-- Witness for the amended C9: an empty executable, and an invalid mode
with one counted run. -/
theorem config_errors_fatal_witness :
    mainAction "" "http-get" 1 1 7 wUp fuelOne = .fatalExecutable ∧
    mainAction "x" "bogus" 0 1 7 wUp fuelOne = .ran [] (.abortedRun .fatalMode) :=
  ⟨(config_errors_fatal "" "http-get" 1 1 7 wUp fuelOne).1 (by decide),
   (config_errors_fatal "x" "bogus" 0 1 7 wUp fuelOne).2 (by decide) (by decide)
     (by decide) (by decide)⟩

end BenchmarkClaims

section StatsLemmas

/-- The sorted copy is sorted. -/
theorem sortQ_sorted (l : List ℚ) : List.Sorted (· ≤ ·) (sortQ l) :=
  List.sorted_insertionSort _ l

/-- The sorted copy is a permutation of the input. -/
theorem sortQ_perm (l : List ℚ) : List.Perm (sortQ l) l :=
  List.perm_insertionSort _ l

/-- Membership is preserved by sorting. -/
theorem mem_sortQ {l : List ℚ} {x : ℚ} : x ∈ sortQ l ↔ x ∈ l :=
  (sortQ_perm l).mem_iff

/-- Length is preserved by sorting. -/
theorem length_sortQ (l : List ℚ) : (sortQ l).length = l.length :=
  (sortQ_perm l).length_eq

/-- Sorting a nonempty list gives a nonempty list. -/
theorem sortQ_ne_nil {l : List ℚ} (h : l ≠ []) : sortQ l ≠ [] := by
  intro hs
  apply h
  have hlen := length_sortQ l
  rw [hs] at hlen
  exact List.length_eq_zero.mp hlen.symm

/-- The default-valued head of a nonempty list is a member. -/
theorem headD_mem {l : List ℚ} (h : l ≠ []) (d : ℚ) : l.headD d ∈ l := by
  cases l with
  | nil => exact absurd rfl h
  | cons a t => simp

/-- The default-valued last element of a nonempty list is a member. -/
theorem getLastD_mem : ∀ (l : List ℚ), l ≠ [] → ∀ (d : ℚ), l.getLastD d ∈ l := by
  intro l
  induction l with
  | nil => intro h; exact absurd rfl h
  | cons a t ih =>
    intro _ d
    cases t with
    | nil => simp
    | cons b t2 =>
      have hmem := ih (by simp) d
      simp only [List.getLastD_eq_getLast?, List.getLast?_cons_cons] at hmem ⊢
      exact List.mem_cons_of_mem a hmem

/-- In a sorted list the head is a lower bound of every member. -/
theorem headD_le_of_sorted {l : List ℚ} (hs : List.Sorted (· ≤ ·) l) {x : ℚ}
    (hx : x ∈ l) (d : ℚ) : l.headD d ≤ x := by
  cases l with
  | nil => cases hx
  | cons a t =>
    rcases List.mem_cons.mp hx with rfl | hxt
    · simp
    · simpa using (List.sorted_cons.mp hs).1 x hxt

/-- In a sorted list the last element is an upper bound of every member. -/
theorem le_getLastD_of_sorted :
    ∀ (l : List ℚ), List.Sorted (· ≤ ·) l →
      ∀ (x : ℚ), x ∈ l → ∀ (d : ℚ), x ≤ l.getLastD d := by
  intro l
  induction l with
  | nil => intro _ x hx; cases hx
  | cons a t ih =>
    intro hs x hx d
    cases t with
    | nil =>
      rcases List.mem_cons.mp hx with rfl | hxt
      · simp
      · cases hxt
    | cons b t2 =>
      have hrel := (List.sorted_cons.mp hs).1
      have hsort2 := (List.sorted_cons.mp hs).2
      simp only [List.getLastD_eq_getLast?, List.getLast?_cons_cons]
      rcases List.mem_cons.mp hx with rfl | hxt
      · have hlast := getLastD_mem (b :: t2) (by simp) d
        simp only [List.getLastD_eq_getLast?, List.getLast?_cons_cons] at hlast ⊢
        exact hrel _ hlast
      · have hih := ih hsort2 x hxt d
        simpa only [List.getLastD_eq_getLast?] using hih

/-- The minimum is a lower bound of the RunSet. -/
theorem minQ_le_mem {l : List ℚ} {x : ℚ} (hx : x ∈ l) : minQ l ≤ x :=
  headD_le_of_sorted (sortQ_sorted l) (mem_sortQ.mpr hx) 0

/-- The maximum is an upper bound of the RunSet. -/
theorem mem_le_maxQ {l : List ℚ} {x : ℚ} (hx : x ∈ l) : x ≤ maxQ l :=
  le_getLastD_of_sorted (sortQ l) (sortQ_sorted l) x (mem_sortQ.mpr hx) 0

/-- An in-range element of the sorted copy is a member of the RunSet. -/
theorem sortQ_getD_mem {l : List ℚ} {i : ℕ} (h : i < (sortQ l).length) (d : ℚ) :
    (sortQ l).getD i d ∈ l := by
  rw [List.getD_eq_getElem?_getD, List.getElem?_eq_getElem h, Option.getD_some]
  exact mem_sortQ.mp (List.getElem_mem h)

/-- The median of a nonempty RunSet lies between its minimum and its
maximum. -/
theorem medianQ_between {l : List ℚ} (h : l ≠ []) :
    minQ l ≤ medianQ l ∧ medianQ l ≤ maxQ l := by
  have hlen : 0 < (sortQ l).length := by
    rw [length_sortQ]
    exact List.length_pos.mpr h
  unfold medianQ
  by_cases hodd : (sortQ l).length % 2 = 1
  · rw [if_pos hodd]
    have hidx : (sortQ l).length / 2 < (sortQ l).length :=
      Nat.div_lt_self hlen (by norm_num)
    have hmem := sortQ_getD_mem hidx (0 : ℚ)
    exact ⟨minQ_le_mem hmem, mem_le_maxQ hmem⟩
  · rw [if_neg hodd]
    have h2 : 2 ≤ (sortQ l).length := by omega
    have hib : (sortQ l).length / 2 < (sortQ l).length :=
      Nat.div_lt_self hlen (by norm_num)
    have hia : (sortQ l).length / 2 - 1 < (sortQ l).length := by omega
    have hmema := sortQ_getD_mem hia (0 : ℚ)
    have hmemb := sortQ_getD_mem hib (0 : ℚ)
    constructor
    · have ha := minQ_le_mem hmema
      have hb := minQ_le_mem hmemb
      linarith
    · have ha := mem_le_maxQ hmema
      have hb := mem_le_maxQ hmemb
      linarith

/-- Reading past the end of a list yields the default value. -/
theorem getD_of_le_length {l : List ℚ} {n : ℕ} (h : l.length ≤ n) (d : ℚ) :
    l.getD n d = d := by
  rw [List.getD_eq_getElem?_getD, List.getElem?_eq_none h, Option.getD_none]

/-- On a RunSet whose members all equal `v`, any percentile between 0 and
100 is `v` under linear interpolation. -/
theorem percentileQ_const {l : List ℚ} {v : ℚ} (hne : l ≠ [])
    (hall : ∀ x ∈ l, x = v) (p : ℚ) (h0 : 0 ≤ p) (h100 : p ≤ 100) :
    percentileQ l p = v := by
  have hlen : 0 < (sortQ l).length := by
    rw [length_sortQ]
    exact List.length_pos.mpr hne
  have h1n : 1 ≤ ((sortQ l).length : ℚ) := by exact_mod_cast hlen
  have hrle : percentileRank l p ≤ ((sortQ l).length : ℚ) - 1 := by
    unfold percentileRank
    rw [div_le_iff₀ (by norm_num : (0 : ℚ) < 100)]
    nlinarith
  have hfl : (⌊percentileRank l p⌋ : ℚ) ≤ ((sortQ l).length : ℚ) - 1 :=
    le_trans (Int.floor_le _) hrle
  have hfli : ⌊percentileRank l p⌋ ≤ ((sortQ l).length : ℤ) - 1 := by
    exact_mod_cast hfl
  have hidx : percentileIdx l p < (sortQ l).length := by
    unfold percentileIdx
    have htn : (⌊percentileRank l p⌋).toNat ≤ (sortQ l).length - 1 :=
      Int.toNat_le.mpr (by omega)
    omega
  have hlo : (sortQ l).getD (percentileIdx l p) 0 = v :=
    hall _ (sortQ_getD_mem hidx 0)
  have hhi : (sortQ l).getD (percentileIdx l p + 1)
      ((sortQ l).getD (percentileIdx l p) 0) = v := by
    by_cases hcase : percentileIdx l p + 1 < (sortQ l).length
    · exact hall _ (sortQ_getD_mem hcase _)
    · have hge : (sortQ l).length ≤ percentileIdx l p + 1 := by omega
      rw [getD_of_le_length hge]
      exact hlo
  unfold percentileQ
  rw [hhi, hlo]
  ring

/-- On a RunSet whose members all equal `v`, the Tukey fences coincide with
`v` and no value is flagged as an outlier. -/
theorem quartileOutliers_const {l : List ℚ} {v : ℚ} (hne : l ≠ [])
    (hall : ∀ x ∈ l, x = v) : quartileOutliers l = ([], []) := by
  have h25 : percentileQ l 25 = v :=
    percentileQ_const hne hall 25 (by norm_num) (by norm_num)
  have h75 : percentileQ l 75 = v :=
    percentileQ_const hne hall 75 (by norm_num) (by norm_num)
  have hmemv : ∀ a ∈ sortQ l, a = v := fun a ha => hall a (mem_sortQ.mp ha)
  unfold quartileOutliers
  refine Prod.ext ?_ ?_ <;>
  · apply List.filter_eq_nil_iff.mpr
    intro a ha
    rw [hmemv a ha]
    simp [isMildOutlier, isExtremeOutlier, h25, h75]

/-- On a RunSet whose members all equal `v`, the sum is the length times
`v`. -/
theorem sum_const_runset {l : List ℚ} {v : ℚ} (hall : ∀ x ∈ l, x = v) :
    l.sum = (l.length : ℚ) * v := by
  have := List.sum_eq_card_nsmul l v hall
  rw [this]
  simp [nsmul_eq_mul]

/-- On a nonempty RunSet whose members all equal `v`, the mean is `v`. -/
theorem meanQ_const {l : List ℚ} {v : ℚ} (hne : l ≠ [])
    (hall : ∀ x ∈ l, x = v) : meanQ l = v := by
  have hlen : (l.length : ℚ) ≠ 0 := by
    exact_mod_cast Nat.pos_iff_ne_zero.mp (List.length_pos.mpr hne)
  unfold meanQ
  rw [sum_const_runset hall]
  field_simp

/-- On a nonempty RunSet whose members all equal `v`, the population
variance is 0. -/
theorem populationVarianceQ_const {l : List ℚ} {v : ℚ} (hne : l ≠ [])
    (hall : ∀ x ∈ l, x = v) : populationVarianceQ l = 0 := by
  unfold populationVarianceQ
  have hzero : ∀ y ∈ l.map fun x => (x - meanQ l) ^ 2, y = 0 := by
    intro y hy
    rcases List.mem_map.mp hy with ⟨x, hx, rfl⟩
    rw [hall x hx, meanQ_const hne hall]
    ring
  rw [sum_const_runset hzero]
  simp

/-- On a nonempty RunSet whose members all equal `v`, the minimum is `v`. -/
theorem minQ_const {l : List ℚ} {v : ℚ} (hne : l ≠ [])
    (hall : ∀ x ∈ l, x = v) : minQ l = v :=
  hall _ (mem_sortQ.mp (headD_mem (sortQ_ne_nil hne) 0))

/-- On a nonempty RunSet whose members all equal `v`, the maximum is `v`. -/
theorem maxQ_const {l : List ℚ} {v : ℚ} (hne : l ≠ [])
    (hall : ∀ x ∈ l, x = v) : maxQ l = v :=
  hall _ (mem_sortQ.mp (getLastD_mem (sortQ l) (sortQ_ne_nil hne) 0))

/-- On a nonempty RunSet whose members all equal `v`, the median is `v`. -/
theorem medianQ_const {l : List ℚ} {v : ℚ} (hne : l ≠ [])
    (hall : ∀ x ∈ l, x = v) : medianQ l = v := by
  have hlen : 0 < (sortQ l).length := by
    rw [length_sortQ]
    exact List.length_pos.mpr hne
  unfold medianQ
  by_cases hodd : (sortQ l).length % 2 = 1
  · rw [if_pos hodd]
    exact hall _ (sortQ_getD_mem (Nat.div_lt_self hlen (by norm_num)) 0)
  · rw [if_neg hodd]
    have hib : (sortQ l).length / 2 < (sortQ l).length :=
      Nat.div_lt_self hlen (by norm_num)
    have hia : (sortQ l).length / 2 - 1 < (sortQ l).length := by omega
    rw [hall _ (sortQ_getD_mem hia 0), hall _ (sortQ_getD_mem hib 0)]
    ring

end StatsLemmas

section StatsClaims

/-- C7: for every nonempty RunSet, the minimum, median and maximum reported
by the statistics stage satisfy min ≤ median ≤ max. -/
theorem min_le_median_le_max (l : List ℚ) (hne : l ≠ []) :
    (summaryOf l).minVal ≤ (summaryOf l).medianVal ∧
    (summaryOf l).medianVal ≤ (summaryOf l).maxVal := by
  have hl : l.isEmpty = false := by
    cases l with
    | nil => exact absurd rfl hne
    | cons a t => rfl
  have hb := medianQ_between hne
  simpa [summaryOf, statMin, statMax, statMedian, discardErr, hl] using hb

/-- Witness for C7, at the RunSet [3, 1, 2]. -/
theorem min_le_median_le_max_witness :
    (summaryOf [3, 1, 2]).minVal ≤ (summaryOf [3, 1, 2]).medianVal ∧
    (summaryOf [3, 1, 2]).medianVal ≤ (summaryOf [3, 1, 2]).maxVal :=
  min_le_median_le_max [3, 1, 2] (by decide)

/-- C8: on a nonempty RunSet whose measurements all equal `v`, the summary
reports min = max = median = v, variance 0 (hence standard deviation 0, the
nonnegative square root of 0), no mild and no extreme outliers, and every
one of the ten configured percentiles equals `v`. -/
theorem constant_runset_stats (l : List ℚ) (v : ℚ) (hne : l ≠ [])
    (hall : ∀ x ∈ l, x = v) :
    summaryOf l = ⟨v, v, v, 0, [], [], List.replicate 10 v⟩ ∧
    isStandardDeviation l 0 ∧
    (∀ p ∈ percentilesList, percentileQ l p = v) ∧
    percentilesList.length = 10 := by
  have hl : l.isEmpty = false := by
    cases l with
    | nil => exact absurd rfl hne
    | cons a t => rfl
  have hbounds : ∀ p ∈ percentilesList, 0 ≤ p ∧ p ≤ 100 := by
    intro p hp
    fin_cases hp <;> norm_num
  have hperc : ∀ p ∈ percentilesList, percentileQ l p = v := fun p hp =>
    percentileQ_const hne hall p (hbounds p hp).1 (hbounds p hp).2
  refine ⟨?_, ⟨le_refl 0, by rw [populationVarianceQ_const hne hall]; ring⟩,
    hperc, rfl⟩
  have hq := quartileOutliers_const hne hall
  have hmin : discardErr (statMin l) = v := by
    simp [statMin, hl, discardErr, minQ_const hne hall]
  have hmax : discardErr (statMax l) = v := by
    simp [statMax, hl, discardErr, maxQ_const hne hall]
  have hmed : discardErr (statMedian l) = v := by
    simp [statMedian, hl, discardErr, medianQ_const hne hall]
  have hvar : discardErr (statVariance l) = 0 := by
    simp [statVariance, hl, discardErr, populationVarianceQ_const hne hall]
  have hpoint : ∀ p ∈ percentilesList, discardErr (statPercentile l p) = v := by
    intro p hp
    simp [statPercentile, hl, discardErr, hperc p hp]
  have hpercvals :
      percentilesList.map (fun p => discardErr (statPercentile l p)) =
        List.replicate 10 v := by
    rw [List.map_congr_left hpoint]
    rw [List.map_const']
    rfl
  simp [summaryOf, hmin, hmax, hmed, hvar, hq, hpercvals]

/-- Witness for C8, at five measurements of exactly 100. -/
theorem constant_runset_stats_witness :
    summaryOf [100, 100, 100, 100, 100] =
        ⟨100, 100, 100, 0, [], [], List.replicate 10 100⟩ ∧
      isStandardDeviation [100, 100, 100, 100, 100] 0 :=
  ⟨(constant_runset_stats [100, 100, 100, 100, 100] 100 (by decide) (by decide)).1,
   (constant_runset_stats [100, 100, 100, 100, 100] 100 (by decide) (by decide)).2.1⟩

/-- C5: on the RunSet [10, 20, 30, 40, 1000], the quartile method gives
Q1 = 20 and Q3 = 40, and the value 1000 is classified as an outlier (in
fact an extreme one: it lies beyond 3 IQR above Q3). -/
theorem runset_1000_is_outlier :
    ((1000 : ℚ) ∈ (quartileOutliers [10, 20, 30, 40, 1000]).1 ∨
      (1000 : ℚ) ∈ (quartileOutliers [10, 20, 30, 40, 1000]).2) ∧
    percentileQ [10, 20, 30, 40, 1000] 25 = 20 ∧
    percentileQ [10, 20, 30, 40, 1000] 75 = 40 := by
  have hsort : sortQ [10, 20, 30, 40, 1000] = [(10 : ℚ), 20, 30, 40, 1000] := by
    norm_num [sortQ, List.insertionSort, List.orderedInsert]
  have hrank25 : percentileRank [10, 20, 30, 40, 1000] 25 = 1 := by
    unfold percentileRank
    rw [hsort]
    norm_num
  have hidx25 : percentileIdx [10, 20, 30, 40, 1000] 25 = 1 := by
    unfold percentileIdx
    rw [hrank25]
    norm_num
  have h25 : percentileQ [10, 20, 30, 40, 1000] 25 = 20 := by
    unfold percentileQ
    rw [hidx25, hrank25, hsort]
    have hg1 : ([(10 : ℚ), 20, 30, 40, 1000]).getD 1 0 = 20 := by decide
    rw [hg1]
    have hg2 : ([(10 : ℚ), 20, 30, 40, 1000]).getD 2 20 = 30 := by decide
    rw [hg2]
    norm_num
  have hrank75 : percentileRank [10, 20, 30, 40, 1000] 75 = 3 := by
    unfold percentileRank
    rw [hsort]
    norm_num
  have hidx75 : percentileIdx [10, 20, 30, 40, 1000] 75 = 3 := by
    unfold percentileIdx
    rw [hrank75]
    norm_num
    decide
  have h75 : percentileQ [10, 20, 30, 40, 1000] 75 = 40 := by
    unfold percentileQ
    rw [hidx75, hrank75, hsort]
    have hg3 : ([(10 : ℚ), 20, 30, 40, 1000]).getD 3 0 = 40 := by decide
    rw [hg3]
    have hg4 : ([(10 : ℚ), 20, 30, 40, 1000]).getD 4 40 = 1000 := by decide
    rw [hg4]
    norm_num
  have hext : isExtremeOutlier [10, 20, 30, 40, 1000] 1000 = true := by
    unfold isExtremeOutlier
    rw [h25, h75]
    simp only [Bool.or_eq_true, decide_eq_true_eq]
    right
    norm_num
  refine ⟨Or.inr ?_, h25, h75⟩
  unfold quartileOutliers
  apply List.mem_filter.mpr
  refine ⟨?_, hext⟩
  rw [hsort]
  decide

end StatsClaims

end TimeToBoot
